import Mathlib

/-
Verification of the TCP header parsing module (tcp_header.py) of PyTCP 0.1.

The Python module is shallowly embedded: byte buffers are lists of natural
numbers (each entry a byte value 0-255), Python indexing that can raise
IndexError is modelled with Option, and functions that can raise are
Option- or Except-valued.  Slicing follows Python semantics: it silently
truncates at the end of the list and never fails.
-/

namespace PyTcp

/-- Python indexing l[i] for a nonnegative index: some byte, or none when the
index is out of range (Python raises IndexError). -/
def pyIndex (l : List Nat) (i : Nat) : Option Nat := l.get? i

/-- Python slice l[a:b] for nonnegative bounds: drops the first a elements and
keeps at most b - a of the rest.  Silently truncates, never fails. -/
def pySlice (l : List Nat) (a b : Nat) : List Nat := (l.drop a).take (b - a)

/-- Python prefix slice l[:k]. -/
def pyTake (l : List Nat) (k : Nat) : List Nat := l.take k

/-- Python suffix slice l[k:]. -/
def pyDrop (l : List Nat) (k : Nat) : List Nat := l.drop k

/-- A decoded TCP option record.  In the source every option class
(TcpOption and its subclasses TcpOptionMss, TcpOptionWscale,
TcpOptionSackPerm, TcpOptionTimestamp) stores the same state, assigned by
the shared TcpOption.__init__: the field self.option. -/
structure TcpOption where
  option : List Nat
deriving DecidableEq

/-- TcpOption.__init__ (tcp_header.py line 44): self.option = data[:data[1]].
Reading data[1] raises IndexError when data has fewer than two bytes, which
the embedding models as none. -/
def mkTcpOption (data : List Nat) : Option TcpOption :=
  (pyIndex data 1).map fun L => ⟨pyTake data L⟩

/-- The state of a TcpHeader object: the header slice, the payload slice and
the optional pseudo header.  Callers outside this file supply the pseudo
header already unpacked into 16-bit words, matching the word-index
arithmetic of compute_checksum (checksum_data[6 + 8]). -/
structure TcpHeader where
  header : List Nat
  data : List Nat
  ip_pseudo_header : Option (List Nat)
deriving DecidableEq

/-- TcpHeader.__init__ (lines 146-148): header = data[:data[12] >> 2],
payload = data[data[12] >> 2:].  Reading data[12] raises IndexError when the
buffer has fewer than 13 bytes; the slices themselves silently truncate. -/
def mkTcpHeader (data : List Nat) (ip_pseudo_header : Option (List Nat)) :
    Option TcpHeader :=
  (pyIndex data 12).map fun b12 =>
    ⟨pyTake data (b12 >>> 2), pyDrop data (b12 >>> 2), ip_pseudo_header⟩

/-- TcpHeader.data_offset (line 178): self.header[12] >> 2. -/
def TcpHeader.data_offset (h : TcpHeader) : Option Nat :=
  (pyIndex h.header 12).map fun b => b >>> 2

/-- TcpHeader.flag_urg (line 184): bool(self.header[13] & 0b00100000). -/
def TcpHeader.flag_urg (h : TcpHeader) : Option Bool :=
  (pyIndex h.header 13).map fun b => decide (b &&& 32 ≠ 0)

/-- TcpHeader.flag_ack (line 190): bool(self.header[13] & 0b00010000). -/
def TcpHeader.flag_ack (h : TcpHeader) : Option Bool :=
  (pyIndex h.header 13).map fun b => decide (b &&& 16 ≠ 0)

/-- TcpHeader.flag_psh (line 196): bool(self.header[13] & 0b00001000). -/
def TcpHeader.flag_psh (h : TcpHeader) : Option Bool :=
  (pyIndex h.header 13).map fun b => decide (b &&& 8 ≠ 0)

/-- TcpHeader.flag_rst (line 202): bool(self.header[13] & 0b00000100). -/
def TcpHeader.flag_rst (h : TcpHeader) : Option Bool :=
  (pyIndex h.header 13).map fun b => decide (b &&& 4 ≠ 0)

/-- TcpHeader.flag_syn (line 208): bool(self.header[13] & 0b00000010). -/
def TcpHeader.flag_syn (h : TcpHeader) : Option Bool :=
  (pyIndex h.header 13).map fun b => decide (b &&& 2 ≠ 0)

/-- TcpHeader.flag_fin (line 214): bool(self.header[13] & 0b00000001). -/
def TcpHeader.flag_fin (h : TcpHeader) : Option Bool :=
  (pyIndex h.header 13).map fun b => decide (b &&& 1 ≠ 0)

/-- Possible abnormal outcomes of the option scan: indexError models a
Python IndexError escaping the loop body; fuelOut is an artefact of the
fuel-based embedding and is proved unreachable below. -/
inductive ScanErr where
  | indexError
  | fuelOut
deriving DecidableEq

/-- The while loop of TcpHeader.options (lines 244-268), cursor i over the
raw option region.  Kind 0 stops the scan, kind 1 advances one byte, any
other kind reads the declared length raw[i+1], slices raw[i:i+length],
builds the record (all five source branches call the shared
TcpOption.__init__) and advances by the declared length. -/
def optionsLoop (raw : List Nat) : Nat → Nat → Except ScanErr (List TcpOption)
  | 0, _ => .error .fuelOut
  | fuel+1, i =>
    if hi : i < raw.length then
      if raw.get ⟨i, hi⟩ = 0 then .ok []
      else if raw.get ⟨i, hi⟩ = 1 then optionsLoop raw fuel (i + 1)
      else
        match pyIndex raw (i + 1) with
        | none => .error .indexError
        | some L =>
          match mkTcpOption (pySlice raw i (i + L)) with
          | none => .error .indexError
          | some opt =>
            match optionsLoop raw fuel (i + L) with
            | .ok rest => .ok (opt :: rest)
            | .error e => .error e
    else .ok []

/-- TcpHeader.options (lines 234-270): scan self.header[20:self.data_offset].
The data_offset property itself raises when the header slice has fewer than
13 bytes.  Fuel raw.length + 1 is sufficient, as proved below. -/
def TcpHeader.options (h : TcpHeader) : Except ScanErr (List TcpOption) :=
  match h.data_offset with
  | none => .error .indexError
  | some doff =>
    let raw := pySlice h.header 20 doff
    optionsLoop raw (raw.length + 1) 0

/-- Big-endian 16-bit words of a byte list, two bytes per word, as produced
by struct.unpack with format "!nH". -/
def toWords16 : List Nat → List Nat
  | a :: b :: rest => (a * 256 + b) :: toWords16 rest
  | _ => []

/-- struct.unpack(f"!nH", l): requires the buffer length to be exactly 2n
(struct.error otherwise, modelled as none) and yields the n words. -/
def unpackWords (l : List Nat) (n : Nat) : Option (List Nat) :=
  if l.length = 2 * n then some (toWords16 l) else none

/-- Python expression ~x & 0xFFFF for a nonnegative x. -/
def pyNot16 (x : Nat) : Nat := 65535 - x % 65536

/-- The final line of compute_checksum (line 284):
~((checksum & 0xFFFF) + (checksum >> 16)) & 0xFFFF.  The carry is folded
exactly once. -/
def inetFinish (s : Nat) : Nat := pyNot16 ((s &&& 65535) + (s >>> 16))

/-- TcpHeader.compute_checksum (lines 272-284).  The payload is padded with
one zero byte when its length is odd; the word stream is the pseudo header
words, the header unpacked as data_offset >> 1 words, and the payload
words; the word at hard-coded index 6 + 8 is zeroed (IndexError, hence
none, when the stream is too short); the word sum is folded once and
complemented.  A missing pseudo header makes list(None) raise, hence
none. -/
def TcpHeader.compute_checksum (h : TcpHeader) : Option Nat :=
  match h.ip_pseudo_header with
  | none => none
  | some ph =>
    let d := if h.data.length % 2 = 1 then h.data ++ [0] else h.data
    match h.data_offset with
    | none => none
    | some doff =>
      match unpackWords h.header (doff >>> 1), unpackWords d (d.length >>> 1) with
      | some hw, some dw =>
        let cd := ph ++ hw ++ dw
        if 14 < cd.length then some (inetFinish ((cd.set 14 0).sum))
        else none
      | _, _ => none

/-- Checksum variant whose zeroing position follows the spec wording: the
zeroed word sits at index (pseudo header length in 16-bit words) + 8,
computed from the actual pseudo header length instead of the hard-coded
6 + 8 of the source.  Everything else is as in compute_checksum. -/
def specZeroChecksum (h : TcpHeader) : Option Nat :=
  match h.ip_pseudo_header with
  | none => none
  | some ph =>
    let d := if h.data.length % 2 = 1 then h.data ++ [0] else h.data
    match h.data_offset with
    | none => none
    | some doff =>
      match unpackWords h.header (doff >>> 1), unpackWords d (d.length >>> 1) with
      | some hw, some dw =>
        let cd := ph ++ hw ++ dw
        if ph.length + 8 < cd.length then
          some (inetFinish ((cd.set (ph.length + 8) 0).sum))
        else none
      | _, _ => none

/-- Fuel-driven carry folding: folds the carry beyond 16 bits back into the
low 16 bits while any remains, as the spec words demand. -/
def foldCarry : Nat → Nat → Nat
  | 0, s => s
  | fuel+1, s => if s < 65536 then s else foldCarry fuel ((s &&& 65535) + (s >>> 16))

/-- Fully folded one's-complement sum.  Each fold of a value of at least
2^16 strictly decreases it, so fuel s always suffices. -/
def specFold (s : Nat) : Nat := foldCarry s s

/-- Spec wording of the finishing step: fold until no carry remains, then
complement the low 16 bits. -/
def specFinish (s : Nat) : Nat := 65535 - specFold s % 65536

/-- Checksum variant whose carry folding follows the spec wording (fold
repeatedly until no carry remains).  Everything else, including the
hard-coded zeroing index, is as in compute_checksum. -/
def specFoldChecksum (h : TcpHeader) : Option Nat :=
  match h.ip_pseudo_header with
  | none => none
  | some ph =>
    let d := if h.data.length % 2 = 1 then h.data ++ [0] else h.data
    match h.data_offset with
    | none => none
    | some doff =>
      match unpackWords h.header (doff >>> 1), unpackWords d (d.length >>> 1) with
      | some hw, some dw =>
        let cd := ph ++ hw ++ dw
        if 14 < cd.length then some (specFinish ((cd.set 14 0).sum))
        else none
      | _, _ => none

/-- Writes a 16-bit checksum value into header bytes 16 and 17 in network
byte order, leaving every other byte unchanged. -/
def setChecksumField (l : List Nat) (c : Nat) : List Nat :=
  l.take 16 ++ [c / 256 % 256, c % 256] ++ l.drop 18

/-- Test vector for C1: a 24-byte buffer whose byte 12 is 0x54, that is,
data offset nibble 5 with reserved bits 2 and 3 set. -/
def bufC1 : List Nat :=
  [0,0,0,0,0,0,0,0,0,0,0,0,0x54,0,0,0,0,0,0,0,0,0,0,0]

/-- Test vector for C2: a 20-byte buffer whose byte 12 is 0xF0, declaring a
60-byte header. -/
def bufC2 : List Nat := [0,0,0,0,0,0,0,0,0,0,0,0,0xF0,0,0,0,0,0,0,0]

/-- Test vector for C3: a 24-byte buffer with data offset 24 whose option
region is [2, 10, 0, 0]: an MSS option declaring length 10 inside a 4-byte
region. -/
def bufC3 : List Nat :=
  [0,0,0,0,0,0,0,0,0,0,0,0,0x60,0,0,0,0,0,0,0,2,10,0,0]

/-- Test vector for C8: a 24-byte buffer with data offset 24 whose option
region is [3, 10, 1, 1]: a window-scale option declaring length 10 inside a
4-byte region. -/
def bufC8 : List Nat :=
  [0,0,0,0,0,0,0,0,0,0,0,0,0x60,0,0,0,0,0,0,0,3,10,1,1]

/-- Test vector for C5: a view with a 4-word (8-byte) pseudo header, a
20-byte header whose checksum field holds 1, and a 2-byte payload. -/
def hdrC5 : TcpHeader :=
  ⟨[0,0,0,0,0,0,0,0,0,0,0,0,0x50,0,0,0,0,1,0,0], [0xAB, 0xCD], some [0,0,0,0]⟩

/-- Header bytes for C6: a 20-byte header, all zero except byte 12 = 0x50,
checksum field zero. -/
def hdrBytesC6 : List Nat := [0,0,0,0,0,0,0,0,0,0,0,0,0x50,0,0,0,0,0,0,0]

/-- Test vector for C6: the view over hdrBytesC6 with a 6-word zero pseudo
header and empty payload, checksum field still zero. -/
def hdrC6zero : TcpHeader := ⟨hdrBytesC6, [], some [0,0,0,0,0,0]⟩

/-- Test vector for C6 after the round trip: the computed checksum 45055
(0xAFFF) written into the checksum field of hdrBytesC6. -/
def hdrC6written : TcpHeader :=
  ⟨setChecksumField hdrBytesC6 45055, [], some [0,0,0,0,0,0]⟩

/-- Test vector for C7: pseudo header words summing with the header words
to 0x1FFFF, a sum whose single fold still carries. -/
def hdrC7 : TcpHeader :=
  ⟨[0,0,0,0,0,0,0,0,0,0,0,0,0x50,0,0,0,0,0,0,0], [],
    some [0xFFFF, 0xAFFF, 1, 0, 0, 0]⟩

/-- Test vector for the C9 witness: a 20-byte buffer with flags byte 0x02
(SYN only). -/
def bufC9 : List Nat := [0,0,0,0,0,0,0,0,0,0,0,0,0x50,2,0,0,0,0,0,0]

/-- Test vector for the C10 witness: a 13-byte buffer with byte 12 = 0x50. -/
def bufC10 : List Nat := [7,7,7,7,7,7,7,7,7,7,7,7,0x50]

/-- Test vector for the C8 witness: a 24-byte buffer with a single well
formed MSS option [2, 4, 5, 180] in its option region. -/
def bufC8w : List Nat :=
  [0,0,0,0,0,0,0,0,0,0,0,0,0x60,0,0,0,0,0,0,0,2,4,5,180]

set_option maxRecDepth 4096 in
theorem byte12_bits : ∀ b : Nat, b < 256 →
    (b &&& 12 = 0 → b >>> 2 = (b >>> 4) * 4) ∧
    (b &&& 15 = 0 → 5 ≤ b >>> 4 →
      20 ≤ b >>> 2 ∧ b >>> 2 ≤ 60 ∧ (b >>> 2) % 4 = 0) := by decide

set_option maxRecDepth 4096 in
theorem flag_bits : ∀ b : Nat, b < 256 →
    decide (b &&& 32 ≠ 0) = b.testBit 5 ∧ decide (b &&& 16 ≠ 0) = b.testBit 4 ∧
    decide (b &&& 8 ≠ 0) = b.testBit 3 ∧ decide (b &&& 4 ≠ 0) = b.testBit 2 ∧
    decide (b &&& 2 ≠ 0) = b.testBit 1 ∧ decide (b &&& 1 ≠ 0) = b.testBit 0 := by
  decide

/-- C1.  The claim says the data_offset accessor returns
(byte12 >> 4) * 4 for every value of byte 12.  The source computes
byte12 >> 2 instead, which differs as soon as bit 2 or bit 3 of byte 12 is
set: with byte 12 = 0x54 the accessor yields 21 while the claim demands
(0x54 >> 4) * 4 = 20. -/
theorem c1_counterexample :
    (mkTcpHeader bufC1 none).map TcpHeader.data_offset = some (some 21) ∧
    (0x54 >>> 4) * 4 = 20 ∧ (21 : Nat) ≠ 20 := ⟨rfl, rfl, by decide⟩

/-- C1 (amended).  For every view whose header holds a byte at offset 12,
the data_offset accessor returns byte12 >> 2; this equals
(byte12 >> 4) * 4 exactly when bits 2 and 3 of byte 12 are clear, and for
well formed headers (reserved nibble zero, data offset nibble at least 5)
the returned value lies in [20, 60] and is a multiple of 4. -/
theorem c1_data_offset_amended (h : TcpHeader) (b : Nat)
    (hb : pyIndex h.header 12 = some b) (hlt : b < 256) :
    h.data_offset = some (b >>> 2) ∧
    (b &&& 12 = 0 → h.data_offset = some ((b >>> 4) * 4)) ∧
    (b &&& 15 = 0 → 5 ≤ b >>> 4 →
      20 ≤ b >>> 2 ∧ b >>> 2 ≤ 60 ∧ (b >>> 2) % 4 = 0) := by
  have hbits := byte12_bits b hlt
  have hdo : h.data_offset = some (b >>> 2) := by
    unfold TcpHeader.data_offset
    rw [hb]
    rfl
  refine ⟨hdo, fun h12 => ?_, hbits.2⟩
  rw [hdo, (hbits.1 h12)]

/-- C1 witness: the amended theorem applied to the view whose header is the
20-byte buffer bufC2 with byte 12 = 0xF0 (reserved nibble zero). -/
theorem c1_witness :
    TcpHeader.data_offset ⟨bufC2, [], none⟩ = some (0xF0 >>> 2) ∧
    (0xF0 &&& 12 = 0 →
      TcpHeader.data_offset ⟨bufC2, [], none⟩ = some ((0xF0 >>> 4) * 4)) ∧
    (0xF0 &&& 15 = 0 → 5 ≤ 0xF0 >>> 4 →
      20 ≤ 0xF0 >>> 2 ∧ 0xF0 >>> 2 ≤ 60 ∧ (0xF0 >>> 2) % 4 = 0) :=
  c1_data_offset_amended ⟨bufC2, [], none⟩ 0xF0 (by decide) (by decide)

/-- C2.  The claim says a buffer shorter than its declared header length
makes construction fail with a MalformedHeader error.  Evaluating the
source on the 20-byte buffer bufC2, which declares a 60-byte header,
construction succeeds and silently truncates: the view holds the whole
20-byte buffer as its header and raises nothing. -/
theorem c2_silent_truncation :
    mkTcpHeader bufC2 none = some ⟨bufC2, [], none⟩ ∧
    bufC2.length = 20 ∧ (0xF0 >>> 4) * 4 = 60 := ⟨rfl, rfl, rfl⟩

/-- C3.  The claim says that when an option declares a length overrunning
the option region, the scan returns only the options decoded before the
fault and signals MalformedOptions.  Evaluating the source on bufC3, whose
4-byte option region [2, 10, 0, 0] starts with an MSS option declaring
length 10, the scan instead returns successfully with the faulting option
itself, truncated to the 4 available bytes, and signals nothing. -/
theorem c3_overrun_not_signaled :
    (mkTcpHeader bufC3 none).map TcpHeader.options =
      some (.ok [⟨[2, 10, 0, 0]⟩]) ∧
    pyIndex bufC3 21 = some 10 ∧ bufC3.length - 20 = 4 := ⟨rfl, rfl, rfl⟩

/-- C5.  The claim says the zeroed word index is computed from the actual
pseudo header length.  The source hard-codes checksum_data[6 + 8] = 0: on
hdrC5, whose pseudo header has 4 words, the source zeroes word 14 (the
payload word) instead of word 4 + 8 = 12 (the checksum field), and its
result 45054 differs from the 1074 produced when the index is derived from
the pseudo header length. -/
theorem c5_hardcoded_zero_index :
    TcpHeader.compute_checksum hdrC5 = some 45054 ∧
    specZeroChecksum hdrC5 = some 1074 ∧ (45054 : Nat) ≠ 1074 :=
  ⟨rfl, rfl, by decide⟩

/-- C6.  The claim says that writing the computed checksum into the field
and recomputing yields exactly 0.  On hdrC6zero the computed checksum is
45055; writing it into the field (hdrC6written) and recomputing yields
45055 again, not 0, because compute_checksum zeroes the checksum word
unconditionally before summation. -/
theorem c6_counterexample :
    TcpHeader.compute_checksum hdrC6zero = some 45055 ∧
    TcpHeader.compute_checksum hdrC6written = some 45055 ∧
    (45055 : Nat) ≠ 0 := ⟨rfl, rfl, by decide⟩

/-- C7.  The claim says the folding of the source is equivalent to the
fully folded one's-complement sum even when a single fold leaves a residual
carry.  On hdrC7 the zeroed word stream sums to 0x1FFFF: the single fold of
the source gives checksum 65535 while full folding gives 65534. -/
theorem c7_counterexample :
    TcpHeader.compute_checksum hdrC7 = some 65535 ∧
    specFoldChecksum hdrC7 = some 65534 ∧ (65535 : Nat) ≠ 65534 :=
  ⟨rfl, rfl, by decide⟩

/-- C8.  The claim says every emitted option record stores exactly as many
bytes as its declared length byte.  On bufC8 the option region [3, 10, 1, 1]
emits a record whose declared length byte is 10 but which stores only the
4 bytes available in the region. -/
theorem c8_counterexample :
    (mkTcpHeader bufC8 none).map TcpHeader.options =
      some (.ok [⟨[3, 10, 1, 1]⟩]) ∧
    pyIndex [3, 10, 1, 1] 1 = some 10 ∧
    ([3, 10, 1, 1] : List Nat).length = 4 ∧ (4 : Nat) ≠ 10 :=
  ⟨rfl, rfl, rfl, by decide⟩

/-- C9.  For every view whose header holds a byte at offset 13, each of the
six flag accessors reports exactly its corresponding bit of that byte, URG
at bit 5 down to FIN at bit 0, independent of the other five flag bits and
of the unused high two bits. -/
theorem c9_flag_bijection (h : TcpHeader) (b : Nat)
    (hb : pyIndex h.header 13 = some b) (hlt : b < 256) :
    h.flag_urg = some (b.testBit 5) ∧ h.flag_ack = some (b.testBit 4) ∧
    h.flag_psh = some (b.testBit 3) ∧ h.flag_rst = some (b.testBit 2) ∧
    h.flag_syn = some (b.testBit 1) ∧ h.flag_fin = some (b.testBit 0) := by
  have hbits := flag_bits b hlt
  unfold TcpHeader.flag_urg TcpHeader.flag_ack TcpHeader.flag_psh
    TcpHeader.flag_rst TcpHeader.flag_syn TcpHeader.flag_fin
  rw [hb]
  simp only [Option.map_some']
  exact ⟨by rw [hbits.1], by rw [hbits.2.1], by rw [hbits.2.2.1],
    by rw [hbits.2.2.2.1], by rw [hbits.2.2.2.2.1], by rw [hbits.2.2.2.2.2]⟩

/-- C9 witness: the flag theorem applied to the view over bufC9, whose
flags byte is 0x02 (SYN only). -/
theorem c9_witness :
    TcpHeader.flag_urg ⟨bufC9, [], none⟩ = some ((2 : Nat).testBit 5) ∧
    TcpHeader.flag_ack ⟨bufC9, [], none⟩ = some ((2 : Nat).testBit 4) ∧
    TcpHeader.flag_psh ⟨bufC9, [], none⟩ = some ((2 : Nat).testBit 3) ∧
    TcpHeader.flag_rst ⟨bufC9, [], none⟩ = some ((2 : Nat).testBit 2) ∧
    TcpHeader.flag_syn ⟨bufC9, [], none⟩ = some ((2 : Nat).testBit 1) ∧
    TcpHeader.flag_fin ⟨bufC9, [], none⟩ = some ((2 : Nat).testBit 0) :=
  c9_flag_bijection ⟨bufC9, [], none⟩ 2 (by decide) (by decide)

/-- C10.  For every buffer holding a byte at offset 12 (length at least 13),
construction splits the buffer at position byte12 >> 2: the header is the
prefix up to that position (truncated to the buffer length if shorter), the
payload is exactly the remaining suffix, and their concatenation restores
the input buffer byte for byte. -/
theorem c10_partition (d : List Nat) (ph : Option (List Nat)) (b12 : Nat)
    (hb : pyIndex d 12 = some b12) :
    mkTcpHeader d ph = some ⟨pyTake d (b12 >>> 2), pyDrop d (b12 >>> 2), ph⟩ ∧
    13 ≤ d.length ∧
    pyTake d (b12 >>> 2) ++ pyDrop d (b12 >>> 2) = d := by
  refine ⟨?_, ?_, List.take_append_drop _ d⟩
  · unfold mkTcpHeader
    rw [hb]
    rfl
  · have : ¬ d.length ≤ 12 := fun hle => by
      unfold pyIndex at hb
      rw [(List.get?_eq_none).mpr hle] at hb
      exact Option.noConfusion hb
    omega

/-- C10 witness: the partition theorem applied to the 13-byte buffer
bufC10. -/
theorem c10_witness :
    mkTcpHeader bufC10 none =
      some ⟨pyTake bufC10 (0x50 >>> 2), pyDrop bufC10 (0x50 >>> 2), none⟩ ∧
    13 ≤ bufC10.length ∧
    pyTake bufC10 (0x50 >>> 2) ++ pyDrop bufC10 (0x50 >>> 2) = bufC10 :=
  c10_partition bufC10 none 0x50 (by decide)

theorem fold_mask (s : Nat) : s &&& 65535 = s % 65536 := by
  have h := Nat.and_pow_two_sub_one_eq_mod s 16
  norm_num at h
  exact h

theorem fold_shift (s : Nat) : s >>> 16 = s / 65536 := by
  rw [Nat.shiftRight_eq_div_pow]

theorem foldCarry_of_lt (f s : Nat) (h : s < 65536) : foldCarry f s = s := by
  cases f with
  | zero => rfl
  | succ f => simp [foldCarry, h]

theorem foldCarry_big (f s : Nat) (h : 65536 ≤ s) :
    foldCarry (f + 1) s = foldCarry f ((s &&& 65535) + (s >>> 16)) := by
  simp [foldCarry, show ¬ s < 65536 by omega]

theorem specFold_big (s : Nat) (h : 65536 ≤ s)
    (hs : (s &&& 65535) + (s >>> 16) ≤ 65535) :
    specFold s = (s &&& 65535) + (s >>> 16) := by
  obtain ⟨f, hf⟩ : ∃ f, s = f + 1 := ⟨s - 1, by omega⟩
  unfold specFold
  calc foldCarry s s = foldCarry (f + 1) s := by rw [hf]
    _ = foldCarry f ((s &&& 65535) + (s >>> 16)) := foldCarry_big f s h
    _ = (s &&& 65535) + (s >>> 16) := foldCarry_of_lt f _ (by omega)

/-- C7 (amended).  The source folds the carry exactly once.  Whenever that
single fold leaves no residual carry, the finishing step of
compute_checksum agrees with the spec finishing step that folds repeatedly
until no carry remains; the counterexample above shows they differ when a
residual carry is left. -/
theorem c7_single_fold_amended (s : Nat)
    (hs : (s &&& 65535) + (s >>> 16) ≤ 65535) :
    inetFinish s = specFinish s := by
  unfold inetFinish pyNot16 specFinish
  by_cases hbig : 65536 ≤ s
  · rw [specFold_big s hbig hs]
  · rw [specFold, foldCarry_of_lt s s (by omega)]
    have h1 : s % 65536 = s := Nat.mod_eq_of_lt (by omega)
    have h2 : s / 65536 = 0 := Nat.div_eq_of_lt (by omega)
    rw [fold_mask, fold_shift, h1, h2, Nat.add_zero, h1]

/-- C7 witness: the amended theorem applied to the sum 5, whose single fold
carries nothing. -/
theorem c7_witness :
    ((5 : Nat) &&& 65535) + ((5 : Nat) >>> 16) ≤ 65535 ∧
    inetFinish 5 = specFinish 5 :=
  ⟨by decide, c7_single_fold_amended 5 (by decide)⟩

theorem pySlice_length (raw : List Nat) (i L : Nat) :
    (pySlice raw i (i + L)).length = min L (raw.length - i) := by
  unfold pySlice
  simp [List.length_take, List.length_drop]

theorem mkTcpOption_none (d : List Nat) (h : d.length ≤ 1) :
    mkTcpOption d = none := by
  unfold mkTcpOption pyIndex
  rw [(List.get?_eq_none).mpr h]
  rfl

theorem mkTcpOption_some_len (d : List Nat) (o : TcpOption)
    (h : mkTcpOption d = some o) : 2 ≤ d.length := by
  by_contra hlt
  rw [mkTcpOption_none d (by omega)] at h
  exact Option.noConfusion h

theorem optionsLoop_no_fuelOut (raw : List Nat) :
    ∀ fuel i, raw.length - i < fuel →
      optionsLoop raw fuel i ≠ .error .fuelOut := by
  intro fuel
  induction fuel with
  | zero => intro i h; omega
  | succ f ih =>
    intro i h
    simp only [optionsLoop]
    split
    case isFalse => simp
    case isTrue hi =>
      split
      · simp
      · split
        · exact ih (i + 1) (by omega)
        · split
          · simp
          · rename_i L hL
            split
            · simp
            · rename_i opt hopt
              have hL2 : 2 ≤ L := by
                have hlen := mkTcpOption_some_len _ _ hopt
                rw [pySlice_length] at hlen
                omega
              have hrec := ih (i + L) (by omega)
              split
              · simp
              · rename_i e heq
                rw [heq] at hrec
                simpa using hrec

/-- C4.  The option scan always terminates: the fuel bound of the embedding
is never exhausted for any view, and whenever the byte at the cursor is a
non-padding, non-terminator kind whose declared length byte is less than 2,
the scan stops at once with an error (the IndexError raised while slicing
fewer than two bytes for the record) instead of advancing by zero bytes. -/
theorem c4_scan_stops (h : TcpHeader) (raw : List Nat) (i L fuel : Nat)
    (hi : i < raw.length)
    (hk0 : pyIndex raw i ≠ some 0) (hk1 : pyIndex raw i ≠ some 1)
    (hL : pyIndex raw (i + 1) = some L) (hL2 : L < 2) :
    TcpHeader.options h ≠ .error .fuelOut ∧
    optionsLoop raw (fuel + 1) i = .error .indexError := by
  constructor
  · cases hdo : h.data_offset with
    | none => simp [TcpHeader.options, hdo]
    | some doff =>
      simp only [TcpHeader.options, hdo]
      exact optionsLoop_no_fuelOut _ _ 0 (by omega)
  · have hget : pyIndex raw i = some (raw.get ⟨i, hi⟩) := List.get?_eq_get hi
    have h0 : raw.get ⟨i, hi⟩ ≠ 0 := fun he => hk0 (by rw [hget, he])
    have h1 : raw.get ⟨i, hi⟩ ≠ 1 := fun he => hk1 (by rw [hget, he])
    have hnone : mkTcpOption (pySlice raw i (i + L)) = none := by
      apply mkTcpOption_none
      rw [pySlice_length]
      omega
    simp only [optionsLoop]
    rw [dif_pos hi, if_neg h0, if_neg h1]
    split
    · rfl
    · rename_i L2 heq
      rw [hL] at heq
      cases Option.some.inj heq
      rw [hnone]

/-- C4 witness: the termination theorem applied to the view over bufC9 and
the region [5, 0, 9, 9], whose first option declares length 0. -/
theorem c4_witness :
    TcpHeader.options ⟨bufC9, [], none⟩ ≠ .error .fuelOut ∧
    optionsLoop [5, 0, 9, 9] 3 0 = .error .indexError :=
  c4_scan_stops ⟨bufC9, [], none⟩ [5, 0, 9, 9] 0 0 2 (by decide)
    (by decide) (by decide) (by decide) (by decide)

theorem pySlice_get1 (raw : List Nat) (i L : Nat) (hL : 2 ≤ L) :
    pyIndex (pySlice raw i (i + L)) 1 = pyIndex raw (i + 1) := by
  unfold pySlice pyIndex
  rw [Nat.add_sub_cancel_left, List.get?_take (show 1 < L by omega),
    List.get?_drop]

theorem mkTcpOption_some_elim (d : List Nat) (o : TcpOption)
    (h : mkTcpOption d = some o) :
    ∃ L2, pyIndex d 1 = some L2 ∧ o = ⟨pyTake d L2⟩ := by
  unfold mkTcpOption at h
  cases hp : pyIndex d 1 with
  | none => rw [hp] at h; exact Option.noConfusion h
  | some L2 =>
    rw [hp] at h
    exact ⟨L2, rfl, (Option.some.inj h).symm⟩

theorem optionsLoop_records (raw : List Nat) :
    ∀ fuel i l, optionsLoop raw fuel i = .ok l →
      ∀ r ∈ l, ∃ j L, pyIndex raw (j + 1) = some L ∧ 2 ≤ L ∧
        r.option = pySlice raw j (j + L) ∧
        r.option.length = min L (raw.length - j) ∧
        pyIndex r.option 1 = some L := by
  intro fuel
  induction fuel with
  | zero =>
    intro i l h
    simp only [optionsLoop] at h
    exact Except.noConfusion h
  | succ f ih =>
    intro i l h
    simp only [optionsLoop] at h
    split at h
    case isFalse =>
      cases Except.ok.inj h
      intro r hr
      cases hr
    case isTrue hi =>
      split at h
      · cases Except.ok.inj h
        intro r hr
        cases hr
      · split at h
        · exact ih (i + 1) l h
        · split at h
          · exact Except.noConfusion h
          · rename_i L heqL
            split at h
            · exact Except.noConfusion h
            · rename_i opt hopt
              split at h
              · rename_i rest hrest
                cases Except.ok.inj h
                have hslice := mkTcpOption_some_len _ _ hopt
                rw [pySlice_length] at hslice
                have hL2 : 2 ≤ L := by omega
                obtain ⟨L2, hpL2, hoeq⟩ := mkTcpOption_some_elim _ _ hopt
                have hL2eq : L2 = L := by
                  rw [pySlice_get1 raw i L hL2, heqL] at hpL2
                  exact (Option.some.inj hpL2).symm
                intro r hr
                cases hr with
                | head =>
                  refine ⟨i, L, heqL, hL2, ?_, ?_, ?_⟩
                  · rw [hoeq, hL2eq]
                    show pyTake (pySlice raw i (i + L)) L = pySlice raw i (i + L)
                    apply List.take_of_length_le
                    rw [pySlice_length]
                    omega
                  · rw [hoeq, hL2eq]
                    show (pyTake (pySlice raw i (i + L)) L).length =
                      min L (raw.length - i)
                    rw [← pySlice_length raw i L]
                    apply congrArg
                    apply List.take_of_length_le
                    rw [pySlice_length]
                    omega
                  · rw [hoeq, hL2eq]
                    show pyIndex (pyTake (pySlice raw i (i + L)) L) 1 = some L
                    have htk : pyTake (pySlice raw i (i + L)) L =
                        pySlice raw i (i + L) := by
                      apply List.take_of_length_le
                      rw [pySlice_length]
                      omega
                    rw [htk, pySlice_get1 raw i L hL2, heqL]
                | tail _ hmem => exact ih (i + L) rest hrest r hmem
              · exact Except.noConfusion h

/-- C8 (amended).  Every record emitted by the option scan is the region
slice starting at its kind byte of length min(declared length, bytes left
in the region): the number of stored bytes equals the declared length byte
whenever the declared slice lies within the region, and is truncated to
the region end otherwise (the counterexample above shows such a truncated
record). -/
theorem c8_option_length_amended (h : TcpHeader) (doff : Nat)
    (l : List TcpOption) (r : TcpOption) (hdo : h.data_offset = some doff)
    (hok : TcpHeader.options h = .ok l) (hr : r ∈ l) :
    ∃ j L, pyIndex (pySlice h.header 20 doff) (j + 1) = some L ∧ 2 ≤ L ∧
      r.option = pySlice (pySlice h.header 20 doff) j (j + L) ∧
      r.option.length = min L ((pySlice h.header 20 doff).length - j) ∧
      pyIndex r.option 1 = some L := by
  unfold TcpHeader.options at hok
  rw [hdo] at hok
  exact optionsLoop_records _ _ _ _ hok r hr

/-- C8 witness: the amended theorem applied to the view over bufC8w, whose
option region holds the single well formed MSS option [2, 4, 5, 180]. -/
theorem c8_witness :
    ∃ j L,
      pyIndex (pySlice ([0,0,0,0,0,0,0,0,0,0,0,0,0x60,0,0,0,0,0,0,0,
        2,4,5,180] : List Nat) 20 24) (j + 1) = some L ∧ 2 ≤ L ∧
      (⟨[2, 4, 5, 180]⟩ : TcpOption).option =
        pySlice (pySlice ([0,0,0,0,0,0,0,0,0,0,0,0,0x60,0,0,0,0,0,0,0,
          2,4,5,180] : List Nat) 20 24) j (j + L) ∧
      (⟨[2, 4, 5, 180]⟩ : TcpOption).option.length =
        min L ((pySlice ([0,0,0,0,0,0,0,0,0,0,0,0,0x60,0,0,0,0,0,0,0,
          2,4,5,180] : List Nat) 20 24).length - j) ∧
      pyIndex (⟨[2, 4, 5, 180]⟩ : TcpOption).option 1 = some L :=
  c8_option_length_amended ⟨bufC8w, [], none⟩ 24 [⟨[2, 4, 5, 180]⟩]
    ⟨[2, 4, 5, 180]⟩ (by decide) rfl (by decide)

theorem toWords16_append : ∀ l1 : List Nat, l1.length % 2 = 0 →
    ∀ l2 : List Nat, toWords16 (l1 ++ l2) = toWords16 l1 ++ toWords16 l2
  | [], _, l2 => rfl
  | [a], h, l2 => by simp at h
  | a :: b :: r, h, l2 => by
    simp only [List.cons_append, toWords16]
    congr 1
    refine toWords16_append r ?_ l2
    simp only [List.length_cons] at h
    omega

theorem toWords16_length : ∀ l : List Nat, (toWords16 l).length = l.length / 2
  | [] => rfl
  | [a] => by
    show ([] : List Nat).length = [a].length / 2
    simp
  | a :: b :: r => by
    simp only [toWords16, List.length_cons]
    rw [toWords16_length r]
    omega

theorem set_at_append (l1 : List Nat) (x y : Nat) (l2 : List Nat) :
    (l1 ++ x :: l2).set l1.length y = l1 ++ y :: l2 := by
  induction l1 with
  | nil => rfl
  | cons a t ih => simp [List.set, ih]

/-- C6 (amended).  compute_checksum zeroes the checksum word of the stream
unconditionally before summation, so for a 12-byte (6-word) pseudo header
its result does not depend on the contents of header bytes 16 and 17.
Writing the computed checksum into that field and recomputing therefore
yields the original checksum again, not 0 (the counterexample above shows
recomputation returning 45055). -/
theorem c6_checksum_field_irrelevant (ph h16 hrest dat : List Nat)
    (a b a2 b2 b12 : Nat) (hph : ph.length = 6) (h16len : h16.length = 16)
    (hb12 : pyIndex h16 12 = some b12)
    (hlen : 18 + hrest.length = 2 * ((b12 >>> 2) >>> 1)) :
    TcpHeader.compute_checksum ⟨h16 ++ a :: b :: hrest, dat, some ph⟩ =
    TcpHeader.compute_checksum ⟨h16 ++ a2 :: b2 :: hrest, dat, some ph⟩ := by
  have hidx : ∀ x y : Nat, pyIndex (h16 ++ x :: y :: hrest) 12 = some b12 := by
    intro x y
    unfold pyIndex at hb12 ⊢
    rw [List.get?_append (by omega)]
    exact hb12
  have hwords : ∀ x y : Nat,
      unpackWords (h16 ++ x :: y :: hrest) ((b12 >>> 2) >>> 1) =
        some (toWords16 h16 ++ (x * 256 + y) :: toWords16 hrest) := by
    intro x y
    unfold unpackWords
    rw [if_pos (by simp; omega), toWords16_append h16 (by omega)]
    rfl
  have hl14 : (ph ++ toWords16 h16).length = 14 := by
    simp [toWords16_length, hph, h16len]
  unfold TcpHeader.compute_checksum TcpHeader.data_offset
  simp only [hidx, Option.map_some']
  rw [hwords, hwords]
  generalize unpackWords
    (if dat.length % 2 = 1 then dat ++ [0] else dat)
    ((if dat.length % 2 = 1 then dat ++ [0] else dat).length >>> 1) = dwOpt
  cases dwOpt with
  | none => rfl
  | some dw =>
    have hassoc : ∀ w : Nat,
        ph ++ (toWords16 h16 ++ w :: toWords16 hrest) ++ dw =
          (ph ++ toWords16 h16) ++ w :: (toWords16 hrest ++ dw) := by
      intro w
      simp [List.append_assoc]
    show
      (if 14 <
          (ph ++ (toWords16 h16 ++ (a * 256 + b) :: toWords16 hrest) ++
            dw).length then
        some (inetFinish
          (((ph ++ (toWords16 h16 ++ (a * 256 + b) :: toWords16 hrest) ++
            dw).set 14 0).sum))
      else none) =
      (if 14 <
          (ph ++ (toWords16 h16 ++ (a2 * 256 + b2) :: toWords16 hrest) ++
            dw).length then
        some (inetFinish
          (((ph ++ (toWords16 h16 ++ (a2 * 256 + b2) :: toWords16 hrest) ++
            dw).set 14 0).sum))
      else none)
    rw [hassoc, hassoc, ← hl14, set_at_append, set_at_append]
    simp [List.length_append]

/-- C6 witness: the field irrelevance theorem applied to the standard
20-byte all-zero header with byte 12 = 0x50, a 6-word zero pseudo header
and empty payload, comparing checksum field 0 with checksum field
0xAFFF. -/
theorem c6_witness :
    TcpHeader.compute_checksum
      ⟨[0,0,0,0,0,0,0,0,0,0,0,0,0x50,0,0,0] ++ 0 :: 0 :: [0, 0], [],
        some [0,0,0,0,0,0]⟩ =
    TcpHeader.compute_checksum
      ⟨[0,0,0,0,0,0,0,0,0,0,0,0,0x50,0,0,0] ++ 0xAF :: 0xFF :: [0, 0], [],
        some [0,0,0,0,0,0]⟩ :=
  c6_checksum_field_irrelevant [0,0,0,0,0,0] [0,0,0,0,0,0,0,0,0,0,0,0,0x50,0,0,0]
    [0, 0] [] 0 0 0xAF 0xFF 0x50 (by decide) (by decide) (by decide) (by decide)

end PyTcp
